import Mathlib

set_option maxHeartbeats 1000000

/-!
Verification of the OregonBridge OOK decoding library: a shallow embedding of
the DecodeOOK bit accumulator, the v1 and v2.1 pulse classifiers, checksum
validation, field extraction and the dispatcher loop, together with theorems
settling the specification claims. Bytes and 8-bit counters are modelled as
Nat with explicit % 256; the 32-bit unsigned sums use explicit % 2 ^ 32.
-/

/-- Decoder states of the OOK pulse classifier (the enum in DecodeOOK). -/
inductive DState where
  | UNKNOWN
  | T0
  | T1
  | T2
  | T3
  | OK
  | DONE
deriving DecidableEq

/-- State owned by a DecodeOOK instance: the 8-bit counters total_bits, bits,
flip and pos, the state-machine state, and the 25-cell byte buffer data,
modelled as a function from index to byte value. -/
@[ext]
structure OOK where
  total_bits : Nat
  bits : Nat
  flip : Nat
  pos : Nat
  state : DState
  data : Nat → Nat

/-- Pointwise update of the byte buffer at one index. -/
def updAt (f : Nat → Nat) (i v : Nat) : Nat → Nat :=
  fun j => if j = i then v else f j

/-- DecodeOOK::resetDecoder: zero all counters and return to UNKNOWN. The data
array contents are not cleared, exactly as in the source. -/
def DecodeOOK.resetDecoder (s : OOK) : OOK :=
  { s with total_bits := 0, bits := 0, pos := 0, flip := 0, state := DState.UNKNOWN }

/-- The state established by the DecodeOOK constructor, which only calls
resetDecoder; the byte array is indeterminate in C++ and modelled as zeros. -/
def DecodeOOK.init : OOK :=
  DecodeOOK.resetDecoder ⟨0, 0, 0, 0, DState.UNKNOWN, fun _ => 0⟩

/-- DecodeOOK::gotBit: shift one bit into the current byte from the high end
(bytes are 8-bit, hence the explicit % 256), advance to the next byte slot when
8 bits have been collected, and reset the whole decoder if the position would
pass the end of the 25-byte array. -/
def DecodeOOK.gotBit (value : Nat) (s : OOK) : OOK :=
  let total' := (s.total_bits + 1) % 256
  let d' := updAt s.data s.pos (((s.data s.pos >>> 1) ||| (value <<< 7)) % 256)
  let bits' := (s.bits + 1) % 256
  if 8 ≤ bits' then
    let pos' := (s.pos + 1) % 256
    if 25 ≤ pos' then
      DecodeOOK.resetDecoder { s with total_bits := total', data := d', bits := 0 }
    else
      { s with total_bits := total', data := d', bits := 0, pos := pos',
               state := DState.OK }
  else
    { s with total_bits := total', data := d', bits := bits', state := DState.OK }

/-- OregonDecoder_v2::gotBit override: commit the bit only when total_bits is
even (v2.1 messages carry every bit twice), always increment the counter, and
derive the byte position as total_bits shifted right by 4. -/
def OregonDecoder_v2.gotBit (value : Nat) (s : OOK) : OOK :=
  let d' :=
    if s.total_bits &&& 0x01 = 0 then
      updAt s.data s.pos
        (((s.data s.pos >>> 1) ||| (if value ≠ 0 then 0x80 else 0)) % 256)
    else s.data
  let total' := (s.total_bits + 1) % 256
  let pos' := total' >>> 4
  if 25 ≤ pos' then
    DecodeOOK.resetDecoder { s with total_bits := total', data := d' }
  else
    { s with total_bits := total', data := d', pos := pos', state := DState.OK }

/-- DecodeOOK::manchester: XOR the running flip bit with the input and append
the result through the virtual gotBit of the concrete decoder (passed as gb). -/
def DecodeOOK.manchester (gb : Nat → OOK → OOK) (value : Nat) (s : OOK) : OOK :=
  let flip' := (s.flip ^^^ value) % 256
  gb flip' { s with flip := flip' }

/-- The padding loop of DecodeOOK::done, while (bits) gotBit(0), written with
explicit fuel; 256 steps always suffice for the 8-bit counter. -/
def DecodeOOK.donePad (gb : Nat → OOK → OOK) : Nat → OOK → OOK
  | 0, s => s
  | fuel + 1, s => if s.bits = 0 then s else DecodeOOK.donePad gb fuel (gb 0 s)

/-- DecodeOOK::done: pad the current byte with zero bits, then mark DONE. -/
def DecodeOOK.done (gb : Nat → OOK → OOK) (s : OOK) : OOK :=
  { DecodeOOK.donePad gb 256 s with state := DState.DONE }

/-- The state-machine switch of OregonDecoder_v1::decode; the value none models
the early return -1 paths, on which the source mutates nothing. -/
def OregonDecoder_v1.decodeSwitch (width : Nat) (s : OOK) : Option OOK :=
  let w : Nat := if 2300 ≤ width then 1 else 0
  match s.state with
  | DState.UNKNOWN =>
      if w = 0 then some { s with flip := (s.flip + 1) % 256 }
      else if 22 ≤ s.flip then some { s with flip := 0, state := DState.T1 }
      else none
  | DState.OK =>
      if w = 0 then some { s with state := DState.T0 }
      else some (DecodeOOK.manchester DecodeOOK.gotBit 1 s)
  | DState.T0 =>
      if w = 0 then some (DecodeOOK.manchester DecodeOOK.gotBit 0 s)
      else none
  | DState.T1 =>
      if 5550 ≤ width ∧ width ≤ 6000 then some { s with state := DState.T2 }
      else none
  | DState.T2 =>
      if 4800 ≤ width ∧ width ≤ 5400 then
        some { s with flip := 1, state := DState.T0 }
      else if 6480 ≤ width ∧ width ≤ 6880 then some (DecodeOOK.gotBit 0 s)
      else none
  | _ => some s

/-- OregonDecoder_v1::decode: widths gated to 900..7000, then the state switch,
then the fixed 32-bit completion check. Codes: -1 reset, 1 done, 0 continue. -/
def OregonDecoder_v1.decode (width : Nat) (s : OOK) : OOK × Int :=
  if 900 ≤ width ∧ width ≤ 7000 then
    match OregonDecoder_v1.decodeSwitch width s with
    | none => (s, -1)
    | some s' => if 32 ≤ s'.total_bits then (s', 1) else (s', 0)
  else (s, -1)

/-- The state-machine switch of OregonDecoder_v2::decode for in-band pulses. -/
def OregonDecoder_v2.decodeSwitch (width : Nat) (s : OOK) : Option OOK :=
  let w : Nat := if 700 ≤ width then 1 else 0
  match s.state with
  | DState.UNKNOWN =>
      if w ≠ 0 then some { s with flip := (s.flip + 1) % 256 }
      else if 24 ≤ s.flip then some { s with flip := 0, state := DState.T0 }
      else none
  | DState.OK =>
      if w = 0 then some { s with state := DState.T0 }
      else some (DecodeOOK.manchester OregonDecoder_v2.gotBit 1 s)
  | DState.T0 =>
      if w = 0 then some (DecodeOOK.manchester OregonDecoder_v2.gotBit 0 s)
      else none
  | _ => some s

/-- OregonDecoder_v2::decode: pulses of 200..1199 drive the switch; a pulse of
at least 2500 with at least 8 buffered bytes is the trailing sync (success);
anything else fails. -/
def OregonDecoder_v2.decode (width : Nat) (s : OOK) : OOK × Int :=
  if 200 ≤ width ∧ width < 1200 then
    match OregonDecoder_v2.decodeSwitch width s with
    | none => (s, -1)
    | some s' => (s', 0)
  else if 2500 ≤ width ∧ 8 ≤ s.pos then (s, 1)
  else (s, -1)

/-- DecodeOOK::nextPulse: run the virtual decode unless already DONE; code -1
resets the decoder, code 1 completes it; returns isDone afterwards. -/
def DecodeOOK.nextPulse (dec : Nat → OOK → OOK × Int) (gb : Nat → OOK → OOK)
    (width : Nat) (s : OOK) : OOK × Bool :=
  let s1 :=
    if s.state ≠ DState.DONE then
      let r := dec width s
      if r.2 = -1 then DecodeOOK.resetDecoder r.1
      else if r.2 = 1 then DecodeOOK.done gb r.1
      else r.1
    else s
  (s1, decide (s1.state = DState.DONE))

/-- OregonDevice_v1::validateChecksum: byte sum of the first three bytes masked
to 8 bits, compared with byte 3. -/
def OregonDevice_v1.validateChecksum (data : Nat → Nat) : Bool :=
  decide (((data 0 + data 1 + data 2) &&& 0xff) = data 3)

/-- OregonDevice_v1::getChannel: switch on the high nibble of byte 0; codes 0x0
and 0x2 both map to channel 1, 0x4 to 2, 0x8 to 3, anything else leaves the
channel variable at its initial value 0. -/
def OregonDevice_v1.getChannel (data : Nat → Nat) : Nat :=
  match (data 0 >>> 4) &&& 0x0f with
  | 0x0 => 1
  | 0x2 => 1
  | 0x4 => 2
  | 0x8 => 3
  | _ => 0

/-- OregonDevice_v2::getChecksumPos: the checksum nibble index selected by the
two leading identifier bytes; 0 signals an unsupported model. -/
def OregonDevice_v2.getChecksumPos (data : Nat → Nat) : Nat :=
  if (data 0 <<< 8) ||| data 1 = 0xea4c ∨ (data 0 <<< 8) ||| data 1 = 0x1a2d then 16
  else 0

/-- The nibble summation loop of OregonDevice_v2::validateChecksum: the loop
index i runs over even values below idx - 1, reading byte i >> 1, hence k
iterations read bytes 0..k-1 and add both nibbles of each. -/
def OregonDevice_v2.nibbleSum (data : Nat → Nat) (k : Nat) : Nat :=
  (List.range k).foldl (fun acc j => acc + ((data j >>> 4) + (data j &&& 0x0f))) 0

/-- OregonDevice_v2::validateChecksum: look up the checksum nibble position,
fail on 0, sum the nibbles before that position, subtract 0x0a in unsigned int
arithmetic (explicit % 2 ^ 32), mask to 8 bits and compare with the checksum
value assembled from one byte or from two adjacent nibbles. -/
def OregonDevice_v2.validateChecksum (data : Nat → Nat) : Bool :=
  let idx := OregonDevice_v2.getChecksumPos data
  if idx = 0 then false
  else
    let sum0 := OregonDevice_v2.nibbleSum data (idx / 2)
    let sum1 := if idx &&& 1 ≠ 0 then sum0 + (data (idx / 2) >>> 4) else sum0
    let checksum : Nat :=
      if idx &&& 1 ≠ 0 then
        ((data ((idx + 1) / 2) &&& 0xf0) >>> 4) ||| ((data (idx / 2) &&& 0x0f) <<< 4)
      else data (idx / 2)
    let sum2 := ((sum1 + (2 ^ 32 - 0x0a)) % 2 ^ 32) &&& 0xff
    decide (sum2 = checksum)

/-- OregonDevice_v2::getTemperature; the float arithmetic in the source is
exact on all values relevant to the claims and is modelled over the rationals. -/
def OregonDevice_v2.getTemperature (data : Nat → Nat) : ℚ :=
  (if data 6 &&& 0x8 ≠ 0 then (-1 : ℚ) else 1) *
    (((((data 5 &&& 0xf0) >>> 4) * 10 + (data 5 &&& 0xf) : ℕ) : ℚ) +
      (((data 4 &&& 0xf0) >>> 4 : ℕ) : ℚ) / 10)

/-- OregonDevice_v2::getHumidity: tens from the low nibble of byte 7, units
from the high nibble of byte 6. -/
def OregonDevice_v2.getHumidity (data : Nat → Nat) : Nat :=
  (data 7 &&& 0xf) * 10 + ((data 6 &&& 0xf0) >>> 4)

/-- OregonDevice_v2::getBattery: true (good) when flag bit 0x4 of byte 4 is
clear. -/
def OregonDevice_v2.getBattery (data : Nat → Nat) : Bool :=
  decide (data 4 &&& 0x4 = 0)

/-- OregonDevice_v2::getChannel: one shifted left by channel code minus one,
truncated to a byte. The source computes 1 << (code - 1) in int arithmetic,
which is undefined for code 0; the Nat model is only relied upon for nonzero
codes. -/
def OregonDevice_v2.getChannel (data : Nat → Nat) : Nat :=
  (1 <<< (((data 2 &&& 0xf0) >>> 4) - 1)) % 256

/-- OregonDevice_v2::getRemoteModel: model name from the identifier formed by
the two leading bytes. -/
def OregonDevice_v2.getRemoteModel (data : Nat → Nat) : String :=
  if (data 0 <<< 8) ||| data 1 = 0xea4c then "THN132N"
  else if (data 0 <<< 8) ||| data 1 = 0x1a2d then "THGR228N"
  else "UNKNOWN"

/-- The worked v2.1 example packet 1A 2D 20 8B 58 21 40 C7 4C 8C. -/
def pktV2 : Nat → Nat := fun i =>
  List.getD [0x1a, 0x2d, 0x20, 0x8b, 0x58, 0x21, 0x40, 0xc7, 0x4c, 0x8c] i 0

/-- The worked v1 example packet 44 53 02 99. -/
def pktV1 : Nat → Nat := fun i =>
  List.getD [0x44, 0x53, 0x02, 0x99] i 0

/-- The second v2.1 example packet from the source comments, 1A 2D 40 58 4C 08
88 82 53, whose channel code nibble is 4. -/
def pktV2b : Nat → Nat := fun i =>
  List.getD [0x1a, 0x2d, 0x40, 0x58, 0x4c, 0x08, 0x88, 0x82, 0x53] i 0

/-- A registered device of the dispatcher: a v1 or a v2.1 decoder state. -/
inductive Dev where
  | v1 : OOK → Dev
  | v2 : OOK → Dev

/-- The decoder state held by a device. -/
def Dev.ook : Dev → OOK
  | Dev.v1 s => s
  | Dev.v2 s => s

/-- Device::nextPulse, dispatching to the decoder of the concrete device. -/
def Dev.nextPulse (width : Nat) : Dev → Dev × Bool
  | Dev.v1 s =>
      let r := DecodeOOK.nextPulse OregonDecoder_v1.decode DecodeOOK.gotBit width s
      (Dev.v1 r.1, r.2)
  | Dev.v2 s =>
      let r := DecodeOOK.nextPulse OregonDecoder_v2.decode OregonDecoder_v2.gotBit width s
      (Dev.v2 r.1, r.2)

/-- Reset the decoder held by a device. -/
def Dev.reset : Dev → Dev
  | Dev.v1 s => Dev.v1 (DecodeOOK.resetDecoder s)
  | Dev.v2 s => Dev.v2 (DecodeOOK.resetDecoder s)

/-- Device::validateChecksum, dispatching on the concrete device class. -/
def Dev.validate : Dev → (Nat → Nat) → Bool
  | Dev.v1 _, d => OregonDevice_v1.validateChecksum d
  | Dev.v2 _, d => OregonDevice_v2.validateChecksum d

/-- OregonBridge::dataToDecoder: hand out the raw buffer of the decoder and
reset the decoder; resetting does not clear the handed-out bytes. -/
def dataToDecoder (d : Dev) : (Nat → Nat) × Dev :=
  (d.ook.data, d.reset)

/-- The per-device body of OregonBridge::loop: feed the pulse, and when the
classifier reports completion take the data, reset the decoder, validate the
checksum and, on success, record the callback invocation. -/
def loopDev (p : Nat) (d : Dev) : Dev × Option (Nat → Nat) :=
  let r := Dev.nextPulse p d
  if r.2 then
    let dd := dataToDecoder r.1
    if Dev.validate r.1 dd.1 then (dd.2, some dd.1) else (dd.2, none)
  else (r.1, none)

/-- OregonBridge::loop: read and clear the shared pulse slot, return at once on
a zero value, otherwise run every registered device; the outputs are the new
pulse slot, the new device list, and the data arrays passed to the callback. -/
def OregonBridge.loop (pulse : Nat) (devs : List Dev) :
    (Nat × List Dev) × List (Nat → Nat) :=
  if pulse = 0 then ((0, devs), [])
  else
    let results := devs.map (loopDev pulse)
    ((0, results.map Prod.fst), results.filterMap Prod.snd)

/-- The v2.1 bit-emission routine folded over a list of offered bit values. -/
def gotBitRunV2 (vs : List Nat) (s : OOK) : OOK :=
  vs.foldl (fun t v => OregonDecoder_v2.gotBit v t) s

/-- The generic bit accumulator folded over a list of offered bit values. -/
def appendRunN (vs : List Nat) (s : OOK) : OOK :=
  vs.foldl (fun t v => DecodeOOK.gotBit v t) s

/-- The observable part of a decoder state: all counters, the machine state,
and the buffer contents up to the current byte position (the view handed out
by DecodeOOK::getData). -/
def obs (s : OOK) : Nat × Nat × Nat × Nat × DState × List Nat :=
  (s.total_bits, s.bits, s.flip, s.pos, s.state, (List.range s.pos).map s.data)

/-- The value passed to the bit accumulator for a logical bit. -/
def bitVal (b : Bool) : Nat := if b then 1 else 0

/-- Manchester encoding of a bit sequence into pulse widths, given the
previously emitted bit: a repeated bit becomes a pair of short pulses, a
flipped bit a single long pulse. -/
def encodeManchester (ws wl : Nat) : Bool → List Bool → List Nat
  | _, [] => []
  | p, b :: bs => (if b = p then [ws, ws] else [wl]) ++ encodeManchester ws wl b bs

/-- The v1 classifier state after consuming a list of pulse widths. -/
def decodeRunV1 (pulses : List Nat) (s : OOK) : OOK :=
  pulses.foldl (fun t u => (OregonDecoder_v1.decode u t).1) s

/-- The generic bit accumulator fed with a sequence of logical bits. -/
def appendRun (bs : List Bool) (s : OOK) : OOK :=
  bs.foldl (fun t b => DecodeOOK.gotBit (bitVal b) t) s

/-- Claim C4: the v1 checksum accepts exactly when the sum of the first three
bytes modulo 256 equals byte 3, and accepts the packet 44 53 02 99. -/
theorem claim_C4 :
    (∀ data : Nat → Nat,
      OregonDevice_v1.validateChecksum data = true ↔
        (data 0 + data 1 + data 2) % 256 = data 3) ∧
    OregonDevice_v1.validateChecksum pktV1 = true := by
  constructor
  · intro data
    have h : ((data 0 + data 1 + data 2) &&& 0xff) = (data 0 + data 1 + data 2) % 256 := by
      have h2 : (0xff : ℕ) = 2 ^ 8 - 1 := by norm_num
      rw [h2, Nat.and_pow_two_sub_one_eq_mod]
    simp [OregonDevice_v1.validateChecksum, h]
  · decide

/-- Claim C5: on the worked v2.1 packet the extractors yield model THGR228N,
temperature 21.5, humidity 74, battery good and channel 2. -/
theorem claim_C5 :
    OregonDevice_v2.getRemoteModel pktV2 = "THGR228N" ∧
    OregonDevice_v2.getTemperature pktV2 = 43 / 2 ∧
    OregonDevice_v2.getHumidity pktV2 = 74 ∧
    OregonDevice_v2.getBattery pktV2 = true ∧
    OregonDevice_v2.getChannel pktV2 = 2 := by
  refine ⟨by decide, ?_, by decide, by decide, by decide⟩
  have h1 : ((33 : ℕ) &&& 240) >>> 4 = 2 := by decide
  have h2 : ((33 : ℕ) &&& 15) = 1 := by decide
  have h3 : ((88 : ℕ) &&& 240) >>> 4 = 5 := by decide
  have h4 : ((64 : ℕ) &&& 8) = 0 := by decide
  norm_num [OregonDevice_v2.getTemperature, pktV2, h1, h2, h3, h4]

/-- Claim C10: a zero value in the shared pulse slot makes the dispatcher loop
return with every device decoder untouched and no callback invocation, exactly
as if no pulse had arrived. -/
theorem claim_C10 :
    ∀ devs : List Dev, OregonBridge.loop 0 devs = ((0, devs), []) := by
  intro devs
  rfl

/-- Counterexample to claim C6 as stated: on the second example packet from the
source comments the v2.1 channel code nibble is 4 and getChannel returns 8,
which is not in the set 1, 2, 3. -/
theorem claim_C6_counterexample :
    OregonDevice_v2.getChannel pktV2b = 8 ∧
    ¬(OregonDevice_v2.getChannel pktV2b = 1 ∨ OregonDevice_v2.getChannel pktV2b = 2 ∨
      OregonDevice_v2.getChannel pktV2b = 3) := by
  decide

/-- Claim C6 amended: the v1 getChannel maps channel codes 0x0 and 0x2 to 1,
0x4 to 2, 0x8 to 3 and every other code to 0; the v2.1 getChannel returns two
to the power code minus one, truncated to a byte, for every nonzero code, so
its value lies in 1, 2, 3 only for codes 1 and 2. -/
theorem claim_C6_amended :
    (∀ data : Nat → Nat,
      OregonDevice_v1.getChannel data =
        (if (data 0 >>> 4) &&& 0x0f = 0 ∨ (data 0 >>> 4) &&& 0x0f = 2 then 1
         else if (data 0 >>> 4) &&& 0x0f = 4 then 2
         else if (data 0 >>> 4) &&& 0x0f = 8 then 3
         else 0)) ∧
    (∀ data : Nat → Nat, 1 ≤ (data 2 &&& 0xf0) >>> 4 →
      OregonDevice_v2.getChannel data = 2 ^ (((data 2 &&& 0xf0) >>> 4) - 1) % 256) := by
  constructor
  · intro data
    unfold OregonDevice_v1.getChannel
    have hc : (data 0 >>> 4) &&& 0x0f ≤ 15 := Nat.and_le_right
    generalize (data 0 >>> 4) &&& 0x0f = c at hc ⊢
    interval_cases c <;> rfl
  · intro data _
    unfold OregonDevice_v2.getChannel
    rw [Nat.shiftLeft_eq, one_mul]

/-- Witness for claim C6 amended: the nonzero-code hypothesis holds for the
worked packet, whose channel code is 2 and channel is 2 to the power 1. -/
theorem claim_C6_amended_witness :
    1 ≤ (pktV2 2 &&& 0xf0) >>> 4 ∧
    OregonDevice_v2.getChannel pktV2 = 2 ^ (((pktV2 2 &&& 0xf0) >>> 4) - 1) % 256 :=
  ⟨by decide, claim_C6_amended.2 pktV2 (by decide)⟩

/-- Claim C3, per-call part: every call to the v2.1 gotBit increments the
8-bit total-bits counter, keeps the byte position equal to that counter
divided by 16, leaves the buffer untouched when the counter was odd at call
time, and commits the offered bit into the byte at the current position when
the counter was even, touching no other byte. -/
theorem claim_C3 :
    (∀ (v : Nat) (s : OOK),
      (OregonDecoder_v2.gotBit v s).total_bits = (s.total_bits + 1) % 256 ∧
      (OregonDecoder_v2.gotBit v s).pos = (OregonDecoder_v2.gotBit v s).total_bits / 16) ∧
    (∀ (v : Nat) (s : OOK), s.total_bits % 2 = 1 →
      (OregonDecoder_v2.gotBit v s).data = s.data) ∧
    (∀ (v : Nat) (s : OOK), s.total_bits % 2 = 0 →
      (OregonDecoder_v2.gotBit v s).data s.pos =
        ((s.data s.pos >>> 1) ||| (if v ≠ 0 then 0x80 else 0)) % 256 ∧
      ∀ j, j ≠ s.pos → (OregonDecoder_v2.gotBit v s).data j = s.data j) ∧
    (∀ (vs : List Nat) (s : OOK),
      (gotBitRunV2 vs (DecodeOOK.resetDecoder s)).total_bits = vs.length % 256 ∧
      (gotBitRunV2 vs (DecodeOOK.resetDecoder s)).pos = (vs.length % 256) / 16) := by
  have hstep : ∀ (v : Nat) (s : OOK),
      (OregonDecoder_v2.gotBit v s).total_bits = (s.total_bits + 1) % 256 ∧
      (OregonDecoder_v2.gotBit v s).pos = (OregonDecoder_v2.gotBit v s).total_bits / 16 := by
    intro v s
    have hsr : ((s.total_bits + 1) % 256) >>> 4 = ((s.total_bits + 1) % 256) / 16 := by
      rw [Nat.shiftRight_eq_div_pow]
    have h25 : ¬ 25 ≤ (s.total_bits + 1) % 256 / 16 := by
      omega
    refine ⟨?_, ?_⟩
    · simp [OregonDecoder_v2.gotBit, hsr, if_neg h25]
    · simp [OregonDecoder_v2.gotBit, hsr, if_neg h25]
  have hodd : ∀ (v : Nat) (s : OOK), s.total_bits % 2 = 1 →
      (OregonDecoder_v2.gotBit v s).data = s.data := by
    intro v s h
    unfold OregonDecoder_v2.gotBit
    have h1 : ¬(s.total_bits &&& 0x01 = 0) := by
      rw [Nat.and_one_is_mod]
      omega
    simp only [h1, if_false]
    split <;> rfl
  have heven : ∀ (v : Nat) (s : OOK), s.total_bits % 2 = 0 →
      (OregonDecoder_v2.gotBit v s).data s.pos =
        ((s.data s.pos >>> 1) ||| (if v ≠ 0 then 0x80 else 0)) % 256 ∧
      ∀ j, j ≠ s.pos → (OregonDecoder_v2.gotBit v s).data j = s.data j := by
    intro v s h
    unfold OregonDecoder_v2.gotBit
    have h1 : s.total_bits &&& 0x01 = 0 := by
      rw [Nat.and_one_is_mod]
      omega
    simp only [h1, if_true]
    constructor
    · split <;> simp [DecodeOOK.resetDecoder, updAt]
    · intro j hj
      split <;> simp [DecodeOOK.resetDecoder, updAt, hj]
  refine ⟨hstep, hodd, heven, ?_⟩
  have hrun : ∀ (vs : List Nat) (s : OOK), s.total_bits < 256 →
      (gotBitRunV2 vs s).total_bits = (s.total_bits + vs.length) % 256 ∧
      (s.pos = s.total_bits / 16 →
        (gotBitRunV2 vs s).pos = (gotBitRunV2 vs s).total_bits / 16) := by
    intro vs
    induction vs with
    | nil =>
        intro s hlt
        refine ⟨?_, fun hp => by simpa [gotBitRunV2] using hp⟩
        simp [gotBitRunV2]
        omega
    | cons v vs ih =>
        intro s hlt
        have hstep1 := hstep v s
        have hrun1 : gotBitRunV2 (v :: vs) s = gotBitRunV2 vs (OregonDecoder_v2.gotBit v s) := by
          simp [gotBitRunV2]
        have hlt1 : (OregonDecoder_v2.gotBit v s).total_bits < 256 := by
          rw [hstep1.1]
          exact Nat.mod_lt _ (by norm_num)
        have ih1 := ih (OregonDecoder_v2.gotBit v s) hlt1
        constructor
        · rw [hrun1, ih1.1, hstep1.1]
          simp only [List.length_cons]
          omega
        · intro _
          rw [hrun1]
          exact ih1.2 hstep1.2
  intro vs s
  have hr : (DecodeOOK.resetDecoder s).total_bits = 0 := rfl
  have hp : (DecodeOOK.resetDecoder s).pos = 0 := rfl
  have h0 := hrun vs (DecodeOOK.resetDecoder s) (by rw [hr]; norm_num)
  have h2 := h0.2 (by rw [hr, hp])
  refine ⟨?_, ?_⟩
  · rw [h0.1, hr]
    omega
  · rw [h2, h0.1, hr]
    omega

/-- Witness for claim C3: the odd and even commit rules applied at a concrete
state with counter 1 and at the fresh decoder with counter 0. -/
theorem claim_C3_witness :
    (OregonDecoder_v2.gotBit 1 ⟨1, 0, 0, 0, DState.OK, fun _ => 0⟩).data =
      (⟨1, 0, 0, 0, DState.OK, fun _ => 0⟩ : OOK).data ∧
    (OregonDecoder_v2.gotBit 1 DecodeOOK.init).data DecodeOOK.init.pos =
      ((DecodeOOK.init.data DecodeOOK.init.pos >>> 1) |||
        (if (1 : Nat) ≠ 0 then 0x80 else 0)) % 256 :=
  ⟨claim_C3.2.1 1 ⟨1, 0, 0, 0, DState.OK, fun _ => 0⟩ (by decide),
   (claim_C3.2.2.1 1 DecodeOOK.init (by decide)).1⟩

/-- The bounds kept by the generic bit accumulator are preserved by one call:
fewer than 8 bits pending in the current byte, and position at most 24. -/
theorem gotBit_inv (v : Nat) (s : OOK) (hb : s.bits < 8) (hp : s.pos ≤ 24) :
    (DecodeOOK.gotBit v s).bits < 8 ∧ (DecodeOOK.gotBit v s).pos ≤ 24 := by
  have hb1 : (s.bits + 1) % 256 = s.bits + 1 := Nat.mod_eq_of_lt (by omega)
  have hp1 : (s.pos + 1) % 256 = s.pos + 1 := Nat.mod_eq_of_lt (by omega)
  simp only [DecodeOOK.gotBit, hb1, hp1]
  split_ifs with h8 h25
  · exact ⟨by simp [DecodeOOK.resetDecoder], by simp [DecodeOOK.resetDecoder]⟩
  · exact ⟨by norm_num, by simp; omega⟩
  · exact ⟨by simp; omega, by simpa using hp⟩

/-- The bounds kept by the generic bit accumulator are preserved by any run. -/
theorem appendRunN_inv (vs : List Nat) :
    ∀ s : OOK, s.bits < 8 → s.pos ≤ 24 →
      (appendRunN vs s).bits < 8 ∧ (appendRunN vs s).pos ≤ 24 := by
  induction vs with
  | nil => intro s hb hp; exact ⟨by simpa [appendRunN] using hb, by simpa [appendRunN] using hp⟩
  | cons v vs ih =>
      intro s hb hp
      have h1 := gotBit_inv v s hb hp
      have h2 := ih (DecodeOOK.gotBit v s) h1.1 h1.2
      have h3 : appendRunN (v :: vs) s = appendRunN vs (DecodeOOK.gotBit v s) := by
        simp [appendRunN]
      rw [h3]
      exact h2

/-- Claim C7: from any reset state, no sequence of appended bits ever drives
the byte position beyond 24; and an append arriving with 7 bits pending in
byte 24 (the append that would advance the position past the buffer) leaves
the decoder exactly in a state that an explicit reset produces: all counters
and the position zero and the machine state UNKNOWN. -/
theorem claim_C7 :
    (∀ (vs : List Nat) (s : OOK), (appendRunN vs (DecodeOOK.resetDecoder s)).pos ≤ 24) ∧
    (∀ (v : Nat) (s : OOK), s.bits = 7 → s.pos = 24 →
      DecodeOOK.gotBit v s = DecodeOOK.resetDecoder (DecodeOOK.gotBit v s) ∧
      (DecodeOOK.gotBit v s).total_bits = 0 ∧ (DecodeOOK.gotBit v s).bits = 0 ∧
      (DecodeOOK.gotBit v s).pos = 0 ∧ (DecodeOOK.gotBit v s).flip = 0 ∧
      (DecodeOOK.gotBit v s).state = DState.UNKNOWN) := by
  constructor
  · intro vs s
    exact (appendRunN_inv vs (DecodeOOK.resetDecoder s) (by simp [DecodeOOK.resetDecoder])
      (by simp [DecodeOOK.resetDecoder])).2
  · intro v s h7 h24
    refine ⟨?_, ?_, ?_, ?_, ?_, ?_⟩ <;>
      simp [DecodeOOK.gotBit, DecodeOOK.resetDecoder, h7, h24]

/-- Witness for claim C7: the invariant after one appended bit from a fresh
reset, and the overflow append at a concrete state with 7 pending bits in
byte 24. -/
theorem claim_C7_witness :
    (appendRunN [1] (DecodeOOK.resetDecoder DecodeOOK.init)).pos ≤ 24 ∧
    (DecodeOOK.gotBit 1 ⟨199, 7, 1, 24, DState.OK, fun _ => 0⟩).state = DState.UNKNOWN :=
  ⟨claim_C7.1 [1] DecodeOOK.init,
   (claim_C7.2 1 ⟨199, 7, 1, 24, DState.OK, fun _ => 0⟩ rfl rfl).2.2.2.2.2⟩

/-- Claim C8: whenever a decode attempt of either classifier fails (the decode
returns -1, so nextPulse runs resetDecoder), and also after the explicit reset
the dispatcher performs on completion, the observable classifier state equals
that of a freshly constructed decoder: UNKNOWN, zeroed counters, empty
buffer view. -/
theorem claim_C8 :
    (∀ (w : Nat) (s : OOK), s.state ≠ DState.DONE → (OregonDecoder_v1.decode w s).2 = -1 →
      obs (DecodeOOK.nextPulse OregonDecoder_v1.decode DecodeOOK.gotBit w s).1 =
        obs DecodeOOK.init) ∧
    (∀ (w : Nat) (s : OOK), s.state ≠ DState.DONE → (OregonDecoder_v2.decode w s).2 = -1 →
      obs (DecodeOOK.nextPulse OregonDecoder_v2.decode OregonDecoder_v2.gotBit w s).1 =
        obs DecodeOOK.init) ∧
    (∀ s : OOK, obs (DecodeOOK.resetDecoder s) = obs DecodeOOK.init) := by
  have hobs : ∀ t : OOK, obs (DecodeOOK.resetDecoder t) = obs DecodeOOK.init := by
    intro t
    simp [obs, DecodeOOK.resetDecoder, DecodeOOK.init]
  have hgen : ∀ (dec : Nat → OOK → OOK × Int) (gb : Nat → OOK → OOK) (w : Nat) (s : OOK),
      s.state ≠ DState.DONE → (dec w s).2 = -1 →
      obs (DecodeOOK.nextPulse dec gb w s).1 = obs DecodeOOK.init := by
    intro dec gb w s hdone hres
    simp only [DecodeOOK.nextPulse, if_pos hdone, hres]
    norm_num
    exact hobs _
  exact ⟨fun w s => hgen _ _ w s, fun w s => hgen _ _ w s, hobs⟩

/-- Witness for claim C8: a 5000 microsecond pulse makes both fresh classifiers
fail, and the resulting observable state is the constructed one. -/
theorem claim_C8_witness :
    obs (DecodeOOK.nextPulse OregonDecoder_v1.decode DecodeOOK.gotBit 5000 DecodeOOK.init).1 =
      obs DecodeOOK.init ∧
    obs (DecodeOOK.nextPulse OregonDecoder_v2.decode OregonDecoder_v2.gotBit 5000 DecodeOOK.init).1 =
      obs DecodeOOK.init :=
  ⟨claim_C8.1 5000 DecodeOOK.init (by decide) rfl,
   claim_C8.2.1 5000 DecodeOOK.init (by decide) rfl⟩

/-- Masking with 0xff is reduction modulo 256. -/
theorem and255 (x : Nat) : x &&& 0xff = x % 256 := by
  have h : (0xff : ℕ) = 2 ^ 8 - 1 := by norm_num
  rw [h, Nat.and_pow_two_sub_one_eq_mod]

/-- The identifier formed as byte shifted left by 8 or-ed with a byte equals
the corresponding weighted sum, so it determines both bytes. -/
theorem ident_split (a b v : Nat) (hb : b < 256) (h : (a <<< 8) ||| b = v) :
    a * 256 + b = v := by
  have hb2 : b < 2 ^ 8 := by norm_num at hb ⊢; exact hb
  have h1 : a <<< 8 = 2 ^ 8 * a := by
    rw [Nat.shiftLeft_eq]
    ring
  have h2 : 2 ^ 8 * a + b = 2 ^ 8 * a ||| b := Nat.mul_add_lt_is_or hb2 a
  have h3 : 2 ^ 8 * a + b = v := by rw [h2, ← h1, h]
  omega

/-- The nibble summation loop equals the finite sum of both nibbles of the
first k bytes. -/
theorem nibbleSum_eq (data : Nat → Nat) (k : Nat) :
    OregonDevice_v2.nibbleSum data k =
      ∑ i ∈ Finset.range k, ((data i >>> 4) + (data i &&& 0x0f)) := by
  induction k with
  | zero => simp [OregonDevice_v2.nibbleSum]
  | succ n ih =>
      rw [Finset.sum_range_succ, ← ih]
      simp [OregonDevice_v2.nibbleSum, List.range_succ]

/-- Claim C1: for 10-byte packets, the v2.1 checksum accepts exactly when the
identifier formed from the two leading bytes is one of the two supported
models (for which the nibble position lookup yields 16) and the sum of the 16
nibbles of bytes 0..7 minus 0x0a, masked to 8 bits, equals byte 8; the lookup
yields 16 on the worked packet, which validates. -/
theorem claim_C1 :
    (∀ data : Nat → Nat, (∀ i : Fin 10, data i.val < 256) →
      (OregonDevice_v2.validateChecksum data = true ↔
        (((data 0 <<< 8) ||| data 1 = 0xea4c ∨ (data 0 <<< 8) ||| data 1 = 0x1a2d) ∧
          ((∑ i ∈ Finset.range 8, ((data i >>> 4) + (data i &&& 0x0f))) - 0x0a) &&& 0xff =
            data 8))) ∧
    OregonDevice_v2.getChecksumPos pktV2 = 16 ∧
    OregonDevice_v2.validateChecksum pktV2 = true := by
  refine ⟨?_, by decide, by decide⟩
  intro data hb
  by_cases hid : (data 0 <<< 8) ||| data 1 = 0xea4c ∨ (data 0 <<< 8) ||| data 1 = 0x1a2d
  · have h16 : (2 : ℕ) ^ 4 = 16 := by norm_num
    have hterm : ∀ i : Nat, i < 8 → (data i >>> 4) + (data i &&& 0x0f) ≤ 30 := by
      intro i hi
      have h1 : data i < 256 := hb ⟨i, by omega⟩
      have h2 : data i >>> 4 ≤ 15 := by
        rw [Nat.shiftRight_eq_div_pow, h16]
        omega
      have h3 : data i &&& 0x0f ≤ 15 := Nat.and_le_right
      omega
    have hsum_le : (∑ i ∈ Finset.range 8, ((data i >>> 4) + (data i &&& 0x0f))) ≤ 240 := by
      calc (∑ i ∈ Finset.range 8, ((data i >>> 4) + (data i &&& 0x0f)))
          ≤ ∑ _i ∈ Finset.range 8, 30 :=
            Finset.sum_le_sum (fun i hi => hterm i (Finset.mem_range.mp hi))
        _ = 240 := by simp
    have hpre : ∑ i ∈ Finset.range 2, ((data i >>> 4) + (data i &&& 0x0f)) ≤
        ∑ i ∈ Finset.range 8, ((data i >>> 4) + (data i &&& 0x0f)) :=
      Finset.sum_le_sum_of_subset (Finset.range_subset.mpr (by norm_num))
    have hsum_ge : 26 ≤ ∑ i ∈ Finset.range 8, ((data i >>> 4) + (data i &&& 0x0f)) := by
      have hand : ∀ x : Nat, x &&& 0x0f = x % 16 := by
        intro x
        have h15 : (0x0f : ℕ) = 2 ^ 4 - 1 := by norm_num
        rw [h15, Nat.and_pow_two_sub_one_eq_mod, h16]
      have hpre2 : ∑ i ∈ Finset.range 2, ((data i >>> 4) + (data i &&& 0x0f)) =
          (data 0 >>> 4) + (data 0 &&& 0x0f) + ((data 1 >>> 4) + (data 1 &&& 0x0f)) := by
        simp [Finset.sum_range_succ]
      have hb1 : data 1 < 256 := hb ⟨1, by omega⟩
      rcases hid with h | h
      · have hsplit := ident_split (data 0) (data 1) 0xea4c hb1 h
        have h0 : data 0 = 0xea := by omega
        have h1 : data 1 = 0x4c := by omega
        have : ∑ i ∈ Finset.range 2, ((data i >>> 4) + (data i &&& 0x0f)) = 40 := by
          rw [hpre2, h0, h1]
          decide
        omega
      · have hsplit := ident_split (data 0) (data 1) 0x1a2d hb1 h
        have h0 : data 0 = 0x1a := by omega
        have h1 : data 1 = 0x2d := by omega
        have : ∑ i ∈ Finset.range 2, ((data i >>> 4) + (data i &&& 0x0f)) = 26 := by
          rw [hpre2, h0, h1]
          decide
        omega
    have hd8 : data 8 < 256 := hb ⟨8, by omega⟩
    have e1 : ¬((16 : ℕ) = 0) := by decide
    have e2 : ¬((16 : ℕ) &&& 1 ≠ 0) := by decide
    simp only [OregonDevice_v2.validateChecksum, OregonDevice_v2.getChecksumPos,
      if_pos hid, nibbleSum_eq, if_neg e1, if_neg e2, decide_eq_true_eq, Nat.reduceDiv]
    rw [and255, and255]
    have h232 : (2 : ℕ) ^ 32 = 4294967296 := by norm_num
    rw [h232]
    constructor
    · intro hval
      exact ⟨hid, by omega⟩
    · intro hval
      have := hval.2
      omega
  · simp only [OregonDevice_v2.validateChecksum, OregonDevice_v2.getChecksumPos,
      if_neg hid, if_pos rfl]
    exact ⟨fun h => (Bool.false_ne_true h).elim, fun h => absurd h.1 hid⟩

/-- One non-overflowing call of the generic bit accumulator: the machine state
becomes OK, the flip field is untouched, the counting invariants advance by
one bit. -/
theorem gotBit_ok (v : Nat) (s : OOK) (hb : s.bits < 8) (hp : s.pos ≤ 24)
    (hroom : 8 * s.pos + s.bits ≤ 198) :
    (DecodeOOK.gotBit v s).state = DState.OK ∧
    (DecodeOOK.gotBit v s).flip = s.flip ∧
    (DecodeOOK.gotBit v s).bits < 8 ∧
    (DecodeOOK.gotBit v s).pos ≤ 24 ∧
    8 * (DecodeOOK.gotBit v s).pos + (DecodeOOK.gotBit v s).bits =
      8 * s.pos + s.bits + 1 := by
  have hb1 : (s.bits + 1) % 256 = s.bits + 1 := Nat.mod_eq_of_lt (by omega)
  have hp1 : (s.pos + 1) % 256 = s.pos + 1 := Nat.mod_eq_of_lt (by omega)
  simp only [DecodeOOK.gotBit, hb1, hp1]
  by_cases h8 : 8 ≤ s.bits + 1
  · have h25 : ¬ 25 ≤ s.pos + 1 := by omega
    simp only [if_pos h8, if_neg h25]
    simp
    all_goals omega
  · simp only [if_neg h8]
    simp
    all_goals omega

/-- The generic bit accumulator reads neither the machine state nor the flip
field, so absent overflow these fields thread through a call unchanged. -/
theorem gotBit_stateFlip (v f : Nat) (sig : DState) (s : OOK) (hb : s.bits < 8)
    (hp : s.pos ≤ 24) (hroom : 8 * s.pos + s.bits ≤ 198) :
    DecodeOOK.gotBit v { s with state := sig, flip := f } =
      { DecodeOOK.gotBit v s with flip := f } := by
  have hb1 : (s.bits + 1) % 256 = s.bits + 1 := Nat.mod_eq_of_lt (by omega)
  have hp1 : (s.pos + 1) % 256 = s.pos + 1 := Nat.mod_eq_of_lt (by omega)
  simp only [DecodeOOK.gotBit, hb1, hp1]
  by_cases h8 : 8 ≤ s.bits + 1
  · have h25 : ¬ 25 ≤ s.pos + 1 := by omega
    simp only [if_pos h8, if_neg h25]
  · simp only [if_neg h8]

/-- Specialization of gotBit_stateFlip that leaves the machine state alone. -/
theorem gotBit_flip (v f : Nat) (s : OOK) (hb : s.bits < 8) (hp : s.pos ≤ 24)
    (hroom : 8 * s.pos + s.bits ≤ 198) :
    DecodeOOK.gotBit v { s with flip := f } = { DecodeOOK.gotBit v s with flip := f } :=
  gotBit_stateFlip v f s.state s hb hp hroom

/-- The flip field threads unchanged through a whole non-overflowing run of
the generic bit accumulator. -/
theorem appendRun_flip (bs : List Bool) :
    ∀ (s : OOK) (f : Nat), s.bits < 8 → s.pos ≤ 24 →
      8 * s.pos + s.bits + bs.length ≤ 199 →
      appendRun bs { s with flip := f } = { appendRun bs s with flip := f } := by
  induction bs with
  | nil => intro s f _ _ _; rfl
  | cons b bs ih =>
      intro s f hb hp hroom
      have hroom1 : 8 * s.pos + s.bits ≤ 198 := by
        simp only [List.length_cons] at hroom
        omega
      have hstep : appendRun (b :: bs) { s with flip := f } =
          appendRun bs (DecodeOOK.gotBit (bitVal b) { s with flip := f }) := by
        simp [appendRun]
      have hstep2 : appendRun (b :: bs) s =
          appendRun bs (DecodeOOK.gotBit (bitVal b) s) := by
        simp [appendRun]
      have hok := gotBit_ok (bitVal b) s hb hp hroom1
      rw [hstep, hstep2, gotBit_flip (bitVal b) f s hb hp hroom1]
      exact ih (DecodeOOK.gotBit (bitVal b) s) f hok.2.2.1 hok.2.2.2.1
        (by rw [hok.2.2.2.2]; simp only [List.length_cons] at hroom; omega)

/-- A short in-band pulse in the OK state only moves the v1 classifier to T0. -/
theorem decodeV1_ok_short_fst (w : Nat) (s : OOK) (h1 : 900 ≤ w) (h2 : w < 2300)
    (hst : s.state = DState.OK) :
    (OregonDecoder_v1.decode w s).1 = { s with state := DState.T0 } := by
  have hin : 900 ≤ w ∧ w ≤ 7000 := ⟨h1, by omega⟩
  have hw : ¬ 2300 ≤ w := by omega
  simp [OregonDecoder_v1.decode, OregonDecoder_v1.decodeSwitch, hst, if_pos hin,
    if_neg hw, apply_ite]

/-- A second short pulse, in T0, emits a Manchester bit. -/
theorem decodeV1_t0_short_fst (w : Nat) (s : OOK) (h1 : 900 ≤ w) (h2 : w < 2300)
    (hst : s.state = DState.T0) :
    (OregonDecoder_v1.decode w s).1 = DecodeOOK.manchester DecodeOOK.gotBit 0 s := by
  have hin : 900 ≤ w ∧ w ≤ 7000 := ⟨h1, by omega⟩
  have hw : ¬ 2300 ≤ w := by omega
  simp [OregonDecoder_v1.decode, OregonDecoder_v1.decodeSwitch, hst, if_pos hin,
    if_neg hw, apply_ite]

/-- A long in-band pulse in the OK state emits a Manchester bit directly. -/
theorem decodeV1_ok_long_fst (w : Nat) (s : OOK) (h1 : 2300 ≤ w) (h2 : w ≤ 7000)
    (hst : s.state = DState.OK) :
    (OregonDecoder_v1.decode w s).1 = DecodeOOK.manchester DecodeOOK.gotBit 1 s := by
  have hin : 900 ≤ w ∧ w ≤ 7000 := ⟨by omega, h2⟩
  simp [OregonDecoder_v1.decode, OregonDecoder_v1.decodeSwitch, hst, if_pos hin,
    if_pos h1, apply_ite]

/-- Claim C2 amended: the Manchester round-trip holds whenever the encoded
sequence fits into the remaining buffer room (no implicit overflow reset can
fire); the classifier then appends exactly the encoded bits, with the flip
accumulator left at the last emitted bit. -/
theorem claim_C2_amended :
    ∀ (ws wl : Nat), 900 ≤ ws → ws < 2300 → 2300 ≤ wl → wl ≤ 7000 →
    ∀ (bs : List Bool) (p : Bool) (s : OOK),
      s.state = DState.OK → s.flip = bitVal p →
      s.bits < 8 → s.pos ≤ 24 → 8 * s.pos + s.bits + bs.length ≤ 199 →
      decodeRunV1 (encodeManchester ws wl p bs) s =
        { appendRun bs s with flip := bitVal (bs.getLastD p) } := by
  intro ws wl hws1 hws2 hwl1 hwl2 bs
  induction bs with
  | nil =>
      intro p s hst hfl _ _ _
      simp only [encodeManchester, decodeRunV1, List.foldl_nil, appendRun,
        List.getLastD]
      rw [← hfl]
  | cons b bs ih =>
      intro p s hst hfl hb hp hroom
      have hroom1 : 8 * s.pos + s.bits ≤ 198 := by
        simp only [List.length_cons] at hroom
        omega
      have hok := gotBit_ok (bitVal b) s hb hp hroom1
      have hroom2 : 8 * (DecodeOOK.gotBit (bitVal b) s).pos +
          (DecodeOOK.gotBit (bitVal b) s).bits + bs.length ≤ 199 := by
        rw [hok.2.2.2.2]
        simp only [List.length_cons] at hroom
        omega
      have e4 : (b :: bs).getLastD p = bs.getLastD b := List.getLastD_cons p b bs
      by_cases hbp : b = p
      · subst hbp
        have h1 : (OregonDecoder_v1.decode ws s).1 = { s with state := DState.T0 } :=
          decodeV1_ok_short_fst ws s hws1 hws2 hst
        have h2 : (OregonDecoder_v1.decode ws { s with state := DState.T0 }).1 =
            DecodeOOK.manchester DecodeOOK.gotBit 0 { s with state := DState.T0 } :=
          decodeV1_t0_short_fst ws _ hws1 hws2 rfl
        have hx : ((bitVal b) ^^^ 0) % 256 = bitVal b := by cases b <;> decide
        have h3 : DecodeOOK.manchester DecodeOOK.gotBit 0 { s with state := DState.T0 } =
            DecodeOOK.gotBit (bitVal b) { s with state := DState.T0, flip := bitVal b } := by
          simp only [DecodeOOK.manchester]
          rw [hfl, hx]
        have h4 : DecodeOOK.gotBit (bitVal b) { s with state := DState.T0, flip := bitVal b } =
            { DecodeOOK.gotBit (bitVal b) s with flip := bitVal b } :=
          gotBit_stateFlip (bitVal b) (bitVal b) DState.T0 s hb hp hroom1
        have h6 : (DecodeOOK.gotBit (bitVal b) s).flip = bitVal b := by
          rw [hok.2.1, hfl]
        have h5 : { DecodeOOK.gotBit (bitVal b) s with flip := bitVal b } =
            DecodeOOK.gotBit (bitVal b) s := by
          ext <;> simp [h6]
        have e1 : encodeManchester ws wl b (b :: bs) =
            ws :: ws :: encodeManchester ws wl b bs := by
          simp [encodeManchester]
        have e2 : decodeRunV1 (ws :: ws :: encodeManchester ws wl b bs) s =
            decodeRunV1 (encodeManchester ws wl b bs)
              ((OregonDecoder_v1.decode ws (OregonDecoder_v1.decode ws s).1).1) := by
          simp [decodeRunV1]
        have e3 : appendRun (b :: bs) s = appendRun bs (DecodeOOK.gotBit (bitVal b) s) := by
          simp [appendRun]
        rw [e1, e2, h1, h2, h3, h4, h5, e3, e4]
        exact ih b (DecodeOOK.gotBit (bitVal b) s) hok.1 h6 hok.2.2.1 hok.2.2.2.1 hroom2
      · have hbnot : b = !p := by cases p <;> cases b <;> simp_all
        have h1 : (OregonDecoder_v1.decode wl s).1 =
            DecodeOOK.manchester DecodeOOK.gotBit 1 s :=
          decodeV1_ok_long_fst wl s hwl1 hwl2 hst
        have hx1 : ((bitVal p) ^^^ 1) % 256 = bitVal (!p) := by cases p <;> decide
        have h3 : DecodeOOK.manchester DecodeOOK.gotBit 1 s =
            DecodeOOK.gotBit (bitVal b) { s with flip := bitVal b } := by
          simp only [DecodeOOK.manchester]
          rw [hfl, hx1, ← hbnot]
        have h4 : DecodeOOK.gotBit (bitVal b) { s with flip := bitVal b } =
            { DecodeOOK.gotBit (bitVal b) s with flip := bitVal b } :=
          gotBit_flip (bitVal b) (bitVal b) s hb hp hroom1
        have e1 : encodeManchester ws wl p (b :: bs) =
            wl :: encodeManchester ws wl b bs := by
          simp [encodeManchester, hbp]
        have e2 : decodeRunV1 (wl :: encodeManchester ws wl b bs) s =
            decodeRunV1 (encodeManchester ws wl b bs) ((OregonDecoder_v1.decode wl s).1) := by
          simp [decodeRunV1]
        have e3 : appendRun (b :: bs) s = appendRun bs (DecodeOOK.gotBit (bitVal b) s) := by
          simp [appendRun]
        have hihres := ih b { DecodeOOK.gotBit (bitVal b) s with flip := bitVal b }
          hok.1 rfl hok.2.2.1 hok.2.2.2.1 hroom2
        have hflipthread := appendRun_flip bs (DecodeOOK.gotBit (bitVal b) s) (bitVal b)
          hok.2.2.1 hok.2.2.2.1 hroom2
        rw [e1, e2, h1, h3, h4, hihres, hflipthread, e3, e4]

/-- Counterexample to claim C2 as stated: a classifier in OK with the flip
accumulator matching the last emitted bit (here 1), but with 24 full buffer
bytes, fed the encoding of nine 1-bits (nine short-pulse pairs). The implicit
overflow reset fires after eight bits and the classifier falls back to
preamble hunting, so the final counter is 0, while appending the nine bits
through the bit accumulator leaves counter 1: the fed bits are not all
reproduced in the buffer. -/
theorem claim_C2_counterexample :
    (⟨0, 0, 1, 24, DState.OK, fun _ => 0⟩ : OOK).state = DState.OK ∧
    (⟨0, 0, 1, 24, DState.OK, fun _ => 0⟩ : OOK).flip = bitVal true ∧
    (decodeRunV1 (encodeManchester 1000 3000 true (List.replicate 9 true))
      ⟨0, 0, 1, 24, DState.OK, fun _ => 0⟩).total_bits = 0 ∧
    (decodeRunV1 (encodeManchester 1000 3000 true (List.replicate 9 true))
      ⟨0, 0, 1, 24, DState.OK, fun _ => 0⟩).state = DState.UNKNOWN ∧
    (appendRun (List.replicate 9 true)
      ⟨0, 0, 1, 24, DState.OK, fun _ => 0⟩).total_bits = 1 := by
  refine ⟨rfl, rfl, by decide, by decide, by decide⟩

/-- Witness for claim C2 amended: a two-bit sequence decoded from a fresh OK
state reproduces exactly those two bits. -/
theorem claim_C2_amended_witness :
    decodeRunV1 (encodeManchester 1000 3000 false [true, false])
        ⟨0, 0, 0, 0, DState.OK, fun _ => 0⟩ =
      { appendRun [true, false] ⟨0, 0, 0, 0, DState.OK, fun _ => 0⟩ with
          flip := bitVal ([true, false].getLastD false) } :=
  claim_C2_amended 1000 3000 (by decide) (by decide) (by decide) (by decide)
    [true, false] false ⟨0, 0, 0, 0, DState.OK, fun _ => 0⟩ rfl rfl
    (by decide) (by decide) (by decide)

/-- Witness for claim C1: the characterization instantiated at the worked
packet. -/
theorem claim_C1_witness :
    OregonDevice_v2.validateChecksum pktV2 = true ↔
      (((pktV2 0 <<< 8) ||| pktV2 1 = 0xea4c ∨ (pktV2 0 <<< 8) ||| pktV2 1 = 0x1a2d) ∧
        ((∑ i ∈ Finset.range 8, ((pktV2 i >>> 4) + (pktV2 i &&& 0x0f))) - 0x0a) &&& 0xff =
          pktV2 8) :=
  claim_C1.1 pktV2 (by decide)

/-- Claim C9: when the dispatcher processes a nonzero pulse, it runs every
registered device independently, and the callback fires for a device exactly
when that device reports completion for this pulse and the checksum validates
on its decoded buffer; the data handed to the callback is that buffer. -/
theorem claim_C9 :
    ∀ (p : Nat) (devs : List Dev), p ≠ 0 →
      (OregonBridge.loop p devs).1.2 = devs.map (fun d => (loopDev p d).1) ∧
      (OregonBridge.loop p devs).2 = (devs.map (loopDev p)).filterMap Prod.snd ∧
      ∀ d ∈ devs,
        ((loopDev p d).2.isSome = true ↔
          ((Dev.nextPulse p d).2 = true ∧
            Dev.validate (Dev.nextPulse p d).1 (Dev.nextPulse p d).1.ook.data = true)) ∧
        (∀ arr, (loopDev p d).2 = some arr → arr = (Dev.nextPulse p d).1.ook.data) := by
  intro p devs hp
  refine ⟨?_, ?_, ?_⟩
  · simp [OregonBridge.loop, if_neg hp, List.map_map]
  · simp [OregonBridge.loop, if_neg hp]
  · intro d _
    constructor
    · cases hr : (Dev.nextPulse p d).2 with
      | false => simp [loopDev, hr]
      | true =>
          cases hv : Dev.validate (Dev.nextPulse p d).1 (Dev.nextPulse p d).1.ook.data with
          | false => simp [loopDev, dataToDecoder, hr, hv]
          | true => simp [loopDev, dataToDecoder, hr, hv]
    · intro arr harr
      cases hr : (Dev.nextPulse p d).2 with
      | false => simp [loopDev, hr] at harr
      | true =>
          cases hv : Dev.validate (Dev.nextPulse p d).1 (Dev.nextPulse p d).1.ook.data with
          | false => simp [loopDev, dataToDecoder, hr, hv] at harr
          | true =>
              simp [loopDev, dataToDecoder, hr, hv] at harr
              exact harr.symm

/-- Witness for claim C9: a completed v2.1 classifier holding the validated
worked packet triggers the callback condition on the next pulse. -/
theorem claim_C9_witness :
    (loopDev 500 (Dev.v2 ⟨0, 0, 0, 10, DState.DONE, pktV2⟩)).2.isSome = true ↔
      ((Dev.nextPulse 500 (Dev.v2 ⟨0, 0, 0, 10, DState.DONE, pktV2⟩)).2 = true ∧
        Dev.validate (Dev.nextPulse 500 (Dev.v2 ⟨0, 0, 0, 10, DState.DONE, pktV2⟩)).1
          ((Dev.nextPulse 500 (Dev.v2 ⟨0, 0, 0, 10, DState.DONE, pktV2⟩)).1.ook.data) =
          true) :=
  ((claim_C9 500 [Dev.v2 ⟨0, 0, 0, 10, DState.DONE, pktV2⟩] (by decide)).2.2
    (Dev.v2 ⟨0, 0, 0, 10, DState.DONE, pktV2⟩) (List.mem_singleton.mpr rfl)).1
